import Mathlib

/-!
Verification development for the TSP simulated-annealing program
(`src/main.cpp`).  The engine's data model and operations are embedded
shallowly: tours are lists of city positions, real arithmetic is `ℝ`,
and the randomness consumed by the annealing loop is passed in
explicitly as a list of draws `(i, j, u)` — the two uniform integer
draws and the uniform real draw of one loop iteration.  The while loop
is modelled by recursion on the draw list: each recursive call is one
test of the loop condition followed by one iteration body.
-/

/-- A city record: original 1-based label and 2D coordinates
(`struct City`, main.cpp lines 13–17). -/
structure City where
  index : Int
  x : ℝ
  y : ℝ

instance : Inhabited City := ⟨⟨0, 0, 0⟩⟩

/-- Euclidean distance between two cities
(`euclideanDistance`, main.cpp lines 19–23). -/
noncomputable def euclideanDistance (a b : City) : ℝ :=
  Real.sqrt ((a.x - b.x) * (a.x - b.x) + (a.y - b.y) * (a.y - b.y))

/-- Total length of a cyclic tour: the source loops `i` from `0` to
`n-1` and adds the edge from `tour[i]` to `tour[(i+1) % n]`
(`totalDistance`, main.cpp lines 56–65).  Out-of-range accesses, which
are undefined behaviour in the C++, are modelled with defaults. -/
noncomputable def totalDistance (tour : List Nat) (cities : List City) : ℝ :=
  (List.range tour.length).foldl
    (fun dist i =>
      dist + euclideanDistance (cities.getD (tour.getD i 0) default)
        (cities.getD (tour.getD ((i + 1) % tour.length) 0) default))
    0

/-- The segment-reversal move as the source performs it:
`std::reverse(tour.begin() + i, tour.begin() + j)` reverses the
half-open index range `[i, j)` (main.cpp line 86). -/
def reverseSegment {α : Type*} (l : List α) (i j : Nat) : List α :=
  l.take i ++ ((l.drop i).take (j - i)).reverse ++ l.drop j

/-- Modelled from the spec: the reversal move as §4.2 describes it,
reversing the inclusive index range `[i, j]`.  Used only to compare the
spec's wording with the source's `reverseSegment`. -/
def reverseSegmentInclusive {α : Type*} (l : List α) (i j : Nat) : List α :=
  l.take i ++ ((l.drop i).take (j + 1 - i)).reverse ++ l.drop (j + 1)

/-- `T = 10000.0` (main.cpp line 68). -/
noncomputable def initialTemperature : ℝ := 10000.0

/-- `coolingRate = 0.9999` (main.cpp line 69). -/
noncomputable def coolingRate : ℝ := 0.9999

/-- `absoluteTemperature = 0.00001` (main.cpp line 70). -/
noncomputable def absoluteTemperature : ℝ := 0.00001

/-- The engine's search state: working tour, its cost, the best tour
seen, its cost, and the temperature (main.cpp lines 68–78). -/
structure SAState where
  tour : List Nat
  currentDistance : ℝ
  bestTour : List Nat
  bestDistance : ℝ
  T : ℝ

/-- One iteration body of the annealing loop (main.cpp lines 81–100):
on a degenerate draw `i == j` the source `continue`s, changing nothing
(not even the temperature); otherwise it orders the pair, reverses the
half-open segment, computes the new cost and accepts iff `delta < 0`
or `exp(-delta/T) > u`; on rejection it re-reverses the same segment;
in both non-degenerate branches the temperature is cooled. -/
noncomputable def saStep (cities : List City) (i j : Nat) (u : ℝ)
    (s : SAState) : SAState :=
  if i = j then s
  else
    let i' := min i j
    let j' := max i j
    let tour' := reverseSegment s.tour i' j'
    let newDistance := totalDistance tour' cities
    let delta := newDistance - s.currentDistance
    if delta < 0 ∨ Real.exp (-delta / s.T) > u then
      { tour := tour'
        currentDistance := newDistance
        bestTour := if newDistance < s.bestDistance then tour' else s.bestTour
        bestDistance :=
          if newDistance < s.bestDistance then newDistance else s.bestDistance
        T := s.T * coolingRate }
    else
      { s with tour := reverseSegment tour' i' j', T := s.T * coolingRate }

/-- The annealing while loop (main.cpp line 80), driven by an explicit
finite list of random draws: before each iteration the loop condition
`T > absoluteTemperature` is tested; when it fails the loop exits. -/
noncomputable def saLoop (cities : List City) (draws : List (Nat × Nat × ℝ))
    (s : SAState) : SAState :=
  match draws with
  | [] => s
  | (i, j, u) :: rest =>
    if s.T > absoluteTemperature then saLoop cities rest (saStep cities i j u s)
    else s

/-- The engine's initial state (main.cpp lines 68, 76–78): current and
best tour are the input tour, both costs are its total distance, and
the temperature is the initial temperature. -/
noncomputable def initState (tour : List Nat) (cities : List City) : SAState :=
  { tour := tour
    currentDistance := totalDistance tour cities
    bestTour := tour
    bestDistance := totalDistance tour cities
    T := initialTemperature }

/-- `simulatedAnnealing` (main.cpp lines 67–103): run the loop from the
initial state and replace the tour with `bestTour` on exit
(line 102). -/
noncomputable def simulatedAnnealing (tour : List Nat) (cities : List City)
    (draws : List (Nat × Nat × ℝ)) : List Nat :=
  (saLoop cities draws (initState tour cities)).bestTour

/-- The tours committed (accepted) during a run, in order: one entry
per iteration that takes the acceptance branch of `saStep`
(main.cpp lines 91–96). -/
noncomputable def saLoopCommitted (cities : List City)
    (draws : List (Nat × Nat × ℝ)) (s : SAState) : List (List Nat) :=
  match draws with
  | [] => []
  | (i, j, u) :: rest =>
    if s.T > absoluteTemperature then
      (if i = j then []
       else
        let i' := min i j
        let j' := max i j
        let tour' := reverseSegment s.tour i' j'
        let delta := totalDistance tour' cities - s.currentDistance
        if delta < 0 ∨ Real.exp (-delta / s.T) > u then [tour'] else [])
        ++ saLoopCommitted cities rest (saStep cities i j u s)
    else []

example : reverseSegment [0, 1, 2, 3] 1 3 = [0, 2, 1, 3] := by decide

example : reverseSegment [0, 1, 2] 0 2 = [1, 0, 2] := by decide

example : reverseSegmentInclusive [0, 1, 2] 0 2 = [2, 1, 0] := by decide

section ReverseSegmentLemmas

variable {α : Type*}

theorem reverseSegment_length (l : List α) (i j : Nat) (h : i ≤ j) :
    (reverseSegment l i j).length = l.length := by
  unfold reverseSegment
  simp only [List.length_append, List.length_reverse, List.length_take,
    List.length_drop]
  omega

theorem reverseSegment_perm (l : List α) (i j : Nat) (h : i ≤ j) :
    (reverseSegment l i j).Perm l := by
  conv_rhs =>
    rw [← List.take_append_drop i l, ← List.take_append_drop (j - i) (l.drop i)]
  rw [List.drop_drop, Nat.add_sub_cancel' h, ← List.append_assoc]
  exact List.Perm.append_right _
    (List.Perm.append_left _ (List.reverse_perm _))

theorem reverseSegment_getElem?_left (l : List α) (i j k : Nat)
    (hk : k < i) (hi : i ≤ l.length) :
    (reverseSegment l i j)[k]? = l[k]? := by
  unfold reverseSegment
  rw [List.append_assoc,
    List.getElem?_append_left (by simp [List.length_take]; omega),
    List.getElem?_take_of_lt hk]

theorem reverseSegment_getElem?_mid (l : List α) (i j k : Nat)
    (hik : i ≤ k) (hkj : k < j) (hj : j ≤ l.length) :
    (reverseSegment l i j)[k]? = l[i + j - 1 - k]? := by
  have hA : (l.take i).length = i := by simp [List.length_take]; omega
  have hB : (((l.drop i).take (j - i)).reverse).length = j - i := by
    simp [List.length_take, List.length_drop]; omega
  unfold reverseSegment
  rw [List.append_assoc, List.getElem?_append_right (by omega), hA,
    List.getElem?_append_left (by omega),
    List.getElem?_reverse (by simp [List.length_take, List.length_drop]; omega)]
  simp only [List.length_take, List.length_drop]
  rw [List.getElem?_take_of_lt (by omega), List.getElem?_drop]
  congr 1
  omega

theorem reverseSegment_getElem?_right (l : List α) (i j k : Nat)
    (hij : i ≤ j) (hjk : j ≤ k) (hj : j ≤ l.length) :
    (reverseSegment l i j)[k]? = l[k]? := by
  have hA : (l.take i).length = i := by simp [List.length_take]; omega
  have hB : (((l.drop i).take (j - i)).reverse).length = j - i := by
    simp [List.length_take, List.length_drop]; omega
  unfold reverseSegment
  rw [List.append_assoc, List.getElem?_append_right (by omega), hA,
    List.getElem?_append_right (by omega), hB, List.getElem?_drop]
  congr 1
  omega

theorem reverseSegment_involution (l : List α) (i j : Nat)
    (hij : i ≤ j) (hj : j ≤ l.length) :
    reverseSegment (reverseSegment l i j) i j = l := by
  have hlen : (reverseSegment l i j).length = l.length :=
    reverseSegment_length l i j hij
  apply List.ext_getElem?
  intro k
  rcases Nat.lt_or_ge k i with hk | hk
  · rw [reverseSegment_getElem?_left _ i j k hk (by omega),
      reverseSegment_getElem?_left _ i j k hk (by omega)]
  · rcases Nat.lt_or_ge k j with hk2 | hk2
    · rw [reverseSegment_getElem?_mid _ i j k hk hk2 (by omega),
        reverseSegment_getElem?_mid _ i j _ (by omega) (by omega) hj]
      congr 1
      omega
    · rw [reverseSegment_getElem?_right _ i j k hij hk2 (by omega),
        reverseSegment_getElem?_right _ i j k hij hk2 hj]

theorem reverseSegment_adjacent (l : List α) (i : Nat) (h : i + 1 ≤ l.length) :
    reverseSegment l i (i + 1) = l := by
  apply List.ext_getElem?
  intro k
  rcases Nat.lt_or_ge k i with hk | hk
  · exact reverseSegment_getElem?_left l i (i + 1) k hk (by omega)
  · rcases Nat.lt_or_ge k (i + 1) with hk2 | hk2
    · have hmid := reverseSegment_getElem?_mid l i (i + 1) i (le_refl i)
        (by omega) h
      rw [show i + (i + 1) - 1 - i = i from by omega] at hmid
      rw [show k = i from by omega]
      exact hmid
    · exact reverseSegment_getElem?_right l i (i + 1) k (by omega) hk2 h

end ReverseSegmentLemmas

section StepLemmas

theorem saStep_degenerate (c : List City) (i : Nat) (u : ℝ) (s : SAState) :
    saStep c i i u s = s := by
  simp [saStep]

theorem saStep_tour_perm (c : List City) (i j : Nat) (u : ℝ) (s : SAState) :
    ((saStep c i j u s).tour).Perm s.tour := by
  by_cases hij : i = j
  · rw [hij, saStep_degenerate]
  · simp only [saStep, if_neg hij]
    split_ifs with hacc hlt
    · exact reverseSegment_perm _ _ _ (min_le_max)
    · exact reverseSegment_perm _ _ _ (min_le_max)
    · exact List.Perm.trans
        (reverseSegment_perm (reverseSegment s.tour (min i j) (max i j))
          (min i j) (max i j) min_le_max)
        (reverseSegment_perm s.tour (min i j) (max i j) min_le_max)

theorem saStep_tour_length (c : List City) (i j : Nat) (u : ℝ) (s : SAState) :
    (saStep c i j u s).tour.length = s.tour.length :=
  (saStep_tour_perm c i j u s).length_eq

theorem saStep_bestDistance_le (c : List City) (i j : Nat) (u : ℝ)
    (s : SAState) : (saStep c i j u s).bestDistance ≤ s.bestDistance := by
  by_cases hij : i = j
  · rw [hij, saStep_degenerate]
  · simp only [saStep, if_neg hij]
    split_ifs with hacc hlt
    · exact le_of_lt hlt
    · exact le_refl _
    · exact le_refl _

theorem saStep_best_inv (c : List City) (i j : Nat) (u : ℝ) (s : SAState)
    (hb : s.bestDistance = totalDistance s.bestTour c) :
    (saStep c i j u s).bestDistance
      = totalDistance (saStep c i j u s).bestTour c := by
  by_cases hij : i = j
  · rw [hij, saStep_degenerate]; exact hb
  · simp only [saStep, if_neg hij]
    split_ifs with hacc hlt
    · rfl
    · exact hb
    · exact hb

theorem saStep_cost_inv (c : List City) (i j : Nat) (u : ℝ) (s : SAState)
    (hc : s.currentDistance = totalDistance s.tour c)
    (hi : i < s.tour.length) (hj : j < s.tour.length) :
    (saStep c i j u s).currentDistance
      = totalDistance (saStep c i j u s).tour c := by
  by_cases hij : i = j
  · rw [hij, saStep_degenerate]; exact hc
  · simp only [saStep, if_neg hij]
    split_ifs with hacc hlt
    · rfl
    · rfl
    · rw [reverseSegment_involution s.tour (min i j) (max i j) min_le_max
        (by omega : max i j ≤ s.tour.length)]
      exact hc

end StepLemmas

section LoopLemmas

theorem saLoop_tour_perm (c : List City) (draws : List (Nat × Nat × ℝ))
    (s : SAState) : ((saLoop c draws s).tour).Perm s.tour := by
  induction draws generalizing s with
  | nil => exact List.Perm.refl _
  | cons d rest ih =>
    obtain ⟨i, j, u⟩ := d
    simp only [saLoop]
    split_ifs with hT
    · exact (ih (saStep c i j u s)).trans (saStep_tour_perm c i j u s)
    · exact List.Perm.refl _

theorem saLoop_bestDistance_le (c : List City) (draws : List (Nat × Nat × ℝ))
    (s : SAState) : (saLoop c draws s).bestDistance ≤ s.bestDistance := by
  induction draws generalizing s with
  | nil => exact le_refl _
  | cons d rest ih =>
    obtain ⟨i, j, u⟩ := d
    simp only [saLoop]
    split_ifs with hT
    · exact le_trans (ih (saStep c i j u s)) (saStep_bestDistance_le c i j u s)
    · exact le_refl _

theorem saLoop_best_inv (c : List City) (draws : List (Nat × Nat × ℝ))
    (s : SAState) (hb : s.bestDistance = totalDistance s.bestTour c) :
    (saLoop c draws s).bestDistance
      = totalDistance (saLoop c draws s).bestTour c := by
  induction draws generalizing s with
  | nil => exact hb
  | cons d rest ih =>
    obtain ⟨i, j, u⟩ := d
    simp only [saLoop]
    split_ifs with hT
    · exact ih (saStep c i j u s) (saStep_best_inv c i j u s hb)
    · exact hb

theorem saLoop_cost_inv (c : List City) (draws : List (Nat × Nat × ℝ))
    (s : SAState) (hc : s.currentDistance = totalDistance s.tour c)
    (hd : ∀ d ∈ draws, d.1 < s.tour.length ∧ d.2.1 < s.tour.length) :
    (saLoop c draws s).currentDistance
      = totalDistance (saLoop c draws s).tour c := by
  induction draws generalizing s with
  | nil => exact hc
  | cons d rest ih =>
    obtain ⟨i, j, u⟩ := d
    simp only [saLoop]
    split_ifs with hT
    · refine ih (saStep c i j u s)
        (saStep_cost_inv c i j u s hc (hd (i, j, u) (by simp)).1
          (hd (i, j, u) (by simp)).2) ?_
      intro d hdm
      rw [saStep_tour_length]
      exact hd d (List.mem_cons_of_mem _ hdm)
    · exact hc

end LoopLemmas

section BranchEquations

theorem saStep_accept_eq (c : List City) (i j : Nat) (u : ℝ) (s : SAState)
    (hij : ¬ i = j)
    (hacc : totalDistance (reverseSegment s.tour (min i j) (max i j)) c
        - s.currentDistance < 0 ∨
      Real.exp (-(totalDistance (reverseSegment s.tour (min i j) (max i j)) c
        - s.currentDistance) / s.T) > u) :
    saStep c i j u s =
      { tour := reverseSegment s.tour (min i j) (max i j)
        currentDistance :=
          totalDistance (reverseSegment s.tour (min i j) (max i j)) c
        bestTour :=
          if totalDistance (reverseSegment s.tour (min i j) (max i j)) c
              < s.bestDistance then
            reverseSegment s.tour (min i j) (max i j)
          else s.bestTour
        bestDistance :=
          if totalDistance (reverseSegment s.tour (min i j) (max i j)) c
              < s.bestDistance then
            totalDistance (reverseSegment s.tour (min i j) (max i j)) c
          else s.bestDistance
        T := s.T * coolingRate } := by
  simp only [saStep, if_neg hij, if_pos hacc]

theorem saStep_reject_eq (c : List City) (i j : Nat) (u : ℝ) (s : SAState)
    (hij : ¬ i = j)
    (hnacc : ¬ (totalDistance (reverseSegment s.tour (min i j) (max i j)) c
        - s.currentDistance < 0 ∨
      Real.exp (-(totalDistance (reverseSegment s.tour (min i j) (max i j)) c
        - s.currentDistance) / s.T) > u)) :
    saStep c i j u s =
      { s with
        tour := reverseSegment (reverseSegment s.tour (min i j) (max i j))
          (min i j) (max i j)
        T := s.T * coolingRate } := by
  simp only [saStep, if_neg hij, if_neg hnacc]

theorem saLoop_cons_run (c : List City) (i j : Nat) (u : ℝ)
    (rest : List (Nat × Nat × ℝ)) (s : SAState)
    (hT : s.T > absoluteTemperature) :
    saLoop c ((i, j, u) :: rest) s = saLoop c rest (saStep c i j u s) := by
  simp only [saLoop, if_pos hT]

theorem saLoop_cons_stop (c : List City) (i j : Nat) (u : ℝ)
    (rest : List (Nat × Nat × ℝ)) (s : SAState)
    (hT : ¬ s.T > absoluteTemperature) :
    saLoop c ((i, j, u) :: rest) s = s := by
  simp only [saLoop, if_neg hT]

theorem saLoopCommitted_cons_stop (c : List City) (i j : Nat) (u : ℝ)
    (rest : List (Nat × Nat × ℝ)) (s : SAState)
    (hT : ¬ s.T > absoluteTemperature) :
    saLoopCommitted c ((i, j, u) :: rest) s = [] := by
  simp only [saLoopCommitted, if_neg hT]

theorem saLoopCommitted_cons_degen (c : List City) (i j : Nat) (u : ℝ)
    (rest : List (Nat × Nat × ℝ)) (s : SAState)
    (hT : s.T > absoluteTemperature) (hij : i = j) :
    saLoopCommitted c ((i, j, u) :: rest) s
      = saLoopCommitted c rest (saStep c i j u s) := by
  simp only [saLoopCommitted, if_pos hT, if_pos hij, List.nil_append]

theorem saLoopCommitted_cons_accept (c : List City) (i j : Nat) (u : ℝ)
    (rest : List (Nat × Nat × ℝ)) (s : SAState)
    (hT : s.T > absoluteTemperature) (hij : ¬ i = j)
    (hacc : totalDistance (reverseSegment s.tour (min i j) (max i j)) c
        - s.currentDistance < 0 ∨
      Real.exp (-(totalDistance (reverseSegment s.tour (min i j) (max i j)) c
        - s.currentDistance) / s.T) > u) :
    saLoopCommitted c ((i, j, u) :: rest) s
      = reverseSegment s.tour (min i j) (max i j)
          :: saLoopCommitted c rest (saStep c i j u s) := by
  simp only [saLoopCommitted, if_pos hT, if_neg hij, if_pos hacc,
    List.singleton_append]

theorem saLoopCommitted_cons_reject (c : List City) (i j : Nat) (u : ℝ)
    (rest : List (Nat × Nat × ℝ)) (s : SAState)
    (hT : s.T > absoluteTemperature) (hij : ¬ i = j)
    (hnacc : ¬ (totalDistance (reverseSegment s.tour (min i j) (max i j)) c
        - s.currentDistance < 0 ∨
      Real.exp (-(totalDistance (reverseSegment s.tour (min i j) (max i j)) c
        - s.currentDistance) / s.T) > u)) :
    saLoopCommitted c ((i, j, u) :: rest) s
      = saLoopCommitted c rest (saStep c i j u s) := by
  simp only [saLoopCommitted, if_pos hT, if_neg hij, if_neg hnacc,
    List.nil_append]

end BranchEquations

section BestTracking

theorem saLoop_best_min (c : List City) (draws : List (Nat × Nat × ℝ))
    (s : SAState) (hb : s.bestDistance = totalDistance s.bestTour c) :
    (saLoop c draws s).bestDistance =
      List.foldl min s.bestDistance
        ((saLoopCommitted c draws s).map (fun t => totalDistance t c)) ∧
    ((saLoop c draws s).bestTour = s.bestTour ∨
      (saLoop c draws s).bestTour ∈ saLoopCommitted c draws s) := by
  induction draws generalizing s with
  | nil => exact ⟨rfl, Or.inl rfl⟩
  | cons d rest ih =>
    obtain ⟨i, j, u⟩ := d
    by_cases hT : s.T > absoluteTemperature
    · obtain ⟨ih1, ih2⟩ := ih (saStep c i j u s) (saStep_best_inv c i j u s hb)
      rw [saLoop_cons_run c i j u rest s hT]
      by_cases hij : i = j
      · rw [saLoopCommitted_cons_degen c i j u rest s hT hij]
        constructor
        · rw [ih1, hij, saStep_degenerate]
        · rcases ih2 with h | h
          · left
            rw [h, hij, saStep_degenerate]
          · right
            rw [hij, saStep_degenerate] at h ⊢
            exact h
      · by_cases hacc : totalDistance
            (reverseSegment s.tour (min i j) (max i j)) c
              - s.currentDistance < 0 ∨
            Real.exp (-(totalDistance
                (reverseSegment s.tour (min i j) (max i j)) c
              - s.currentDistance) / s.T) > u
        · have hbd : (saStep c i j u s).bestDistance =
              min s.bestDistance
                (totalDistance (reverseSegment s.tour (min i j) (max i j)) c) := by
            rw [saStep_accept_eq c i j u s hij hacc]
            dsimp only
            by_cases hlt : totalDistance
                (reverseSegment s.tour (min i j) (max i j)) c < s.bestDistance
            · rw [if_pos hlt, min_eq_right (le_of_lt hlt)]
            · rw [if_neg hlt, min_eq_left (le_of_not_lt hlt)]
          have hbt : (saStep c i j u s).bestTour = s.bestTour ∨
              (saStep c i j u s).bestTour
                = reverseSegment s.tour (min i j) (max i j) := by
            rw [saStep_accept_eq c i j u s hij hacc]
            dsimp only
            by_cases hlt : totalDistance
                (reverseSegment s.tour (min i j) (max i j)) c < s.bestDistance
            · right
              rw [if_pos hlt]
            · left
              rw [if_neg hlt]
          rw [saLoopCommitted_cons_accept c i j u rest s hT hij hacc]
          constructor
          · rw [ih1, hbd]
            simp only [List.map_cons, List.foldl_cons]
          · rcases ih2 with h | h
            · rcases hbt with h2 | h2
              · left
                rw [h, h2]
              · right
                rw [h, h2]
                exact List.mem_cons_self _ _
            · right
              exact List.mem_cons_of_mem _ h
        · have hbd : (saStep c i j u s).bestDistance = s.bestDistance := by
            rw [saStep_reject_eq c i j u s hij hacc]
          have hbt : (saStep c i j u s).bestTour = s.bestTour := by
            rw [saStep_reject_eq c i j u s hij hacc]
          rw [saLoopCommitted_cons_reject c i j u rest s hT hij hacc]
          constructor
          · rw [ih1, hbd]
          · rcases ih2 with h | h
            · left
              rw [h, hbt]
            · right
              exact h
    · rw [saLoop_cons_stop c i j u rest s hT,
        saLoopCommitted_cons_stop c i j u rest s hT]
      exact ⟨rfl, Or.inl rfl⟩

end BestTracking

section CostModel

theorem euclideanDistance_self (a : City) : euclideanDistance a a = 0 := by
  simp [euclideanDistance]

theorem euclideanDistance_symm (a b : City) :
    euclideanDistance a b = euclideanDistance b a := by
  unfold euclideanDistance
  ring_nf

/-- Modelled from the spec (§4.1): the total cost is the sum of the
distance over every consecutive pair in the cyclic order, including the
wrap-around edge from the last position back to the first, so exactly
`n` edges are summed.  `tour.zip (tour.rotate 1)` is exactly the list
of the `n` cyclically-consecutive position pairs. -/
noncomputable def specTotalCost (tour : List Nat) (cities : List City) : ℝ :=
  ((tour.zip (tour.rotate 1)).map
    (fun p => euclideanDistance (cities.getD p.1 default)
      (cities.getD p.2 default))).sum

theorem foldl_add_acc (f : Nat → ℝ) (L : List Nat) (a : ℝ) :
    L.foldl (fun d i => d + f i) a = a + (L.map f).sum := by
  induction L generalizing a with
  | nil => simp
  | cons x L ih => simp [List.foldl_cons, ih, add_assoc]

theorem totalDistance_eq_spec (tour : List Nat) (cities : List City) :
    totalDistance tour cities = specTotalCost tour cities := by
  unfold totalDistance specTotalCost
  rw [foldl_add_acc, zero_add]
  congr 1
  apply List.ext_getElem
  · simp [List.length_rotate]
  · intro k h1 h2
    have hk : k < tour.length := by
      simpa using h1
    have hkz : k < (tour.zip (tour.rotate 1)).length := by
      simpa [List.length_rotate] using hk
    simp only [List.getElem_map, List.getElem_range, List.getElem_zip,
      List.getElem_rotate]
    have hget : ∀ (m : Nat) (hm : m < tour.length),
        tour.getD m 0 = tour[m] := by
      intro m hm
      rw [List.getD_eq_getElem?_getD, List.getElem?_eq_getElem hm]
      rfl
    rw [hget k hk, hget ((k + 1) % tour.length)
      (Nat.mod_lt _ (by omega))]

theorem totalDistance_degenerate (tour : List Nat) (cities : List City)
    (h : tour.length ≤ 1) : totalDistance tour cities = 0 := by
  match tour, h with
  | [], _ => rfl
  | [x], _ =>
    show totalDistance [x] cities = 0
    unfold totalDistance
    simp [List.range_succ, euclideanDistance_self]

theorem totalDistance_origin (t : List Nat) (cs : List City)
    (h : ∀ c ∈ cs, c.x = 0 ∧ c.y = 0) : totalDistance t cs = 0 := by
  have hc : ∀ k : Nat, (cs.getD k default).x = 0 ∧ (cs.getD k default).y = 0 := by
    intro k
    rcases Nat.lt_or_ge k cs.length with hk | hk
    · rw [List.getD_eq_getElem?_getD, List.getElem?_eq_getElem hk]
      exact h _ (List.getElem_mem hk)
    · rw [List.getD_eq_getElem?_getD, List.getElem?_eq_none hk]
      exact ⟨rfl, rfl⟩
  have hdist : ∀ a b : Nat,
      euclideanDistance (cs.getD a default) (cs.getD b default) = 0 := by
    intro a b
    unfold euclideanDistance
    rw [(hc a).1, (hc a).2, (hc b).1, (hc b).2]
    norm_num
  unfold totalDistance
  have hgen : ∀ (L : List Nat) (acc : ℝ),
      L.foldl (fun d i =>
        d + euclideanDistance (cs.getD (t.getD i 0) default)
          (cs.getD (t.getD ((i + 1) % t.length) 0) default)) acc = acc := by
    intro L
    induction L with
    | nil => intro acc; rfl
    | cons a L ih => intro acc; rw [List.foldl_cons, hdist, add_zero, ih]
  exact hgen _ 0

end CostModel

section Fixtures

/-- One city at the origin: the degenerate instance `n = 1`. -/
def cities1 : List City := [⟨1, 0, 0⟩]

/-- Two cities, both at the origin. -/
def cities2 : List City := [⟨1, 0, 0⟩, ⟨2, 0, 0⟩]

/-- Three cities, all at the origin. -/
def cities3 : List City := [⟨1, 0, 0⟩, ⟨2, 0, 0⟩, ⟨3, 0, 0⟩]

theorem cities2_origin : ∀ c ∈ cities2, c.x = 0 ∧ c.y = 0 := by
  intro c hc
  simp only [cities2, List.mem_cons, List.not_mem_nil, or_false] at hc
  rcases hc with h | h <;> subst h <;> exact ⟨rfl, rfl⟩

theorem cities3_origin : ∀ c ∈ cities3, c.x = 0 ∧ c.y = 0 := by
  intro c hc
  simp only [cities3, List.mem_cons, List.not_mem_nil, or_false] at hc
  rcases hc with h | h | h <;> subst h <;> exact ⟨rfl, rfl⟩

theorem saStep_T_eq (c : List City) (i j : Nat) (u : ℝ) (s : SAState)
    (hij : ¬ i = j) : (saStep c i j u s).T = s.T * coolingRate := by
  by_cases hacc : totalDistance
      (reverseSegment s.tour (min i j) (max i j)) c
        - s.currentDistance < 0 ∨
      Real.exp (-(totalDistance
          (reverseSegment s.tour (min i j) (max i j)) c
        - s.currentDistance) / s.T) > u
  · rw [saStep_accept_eq c i j u s hij hacc]
  · rw [saStep_reject_eq c i j u s hij hacc]

end Fixtures

section Claims

/-- Claim C1, counterexample.  The spec says the move reverses the
inclusive range `[i, j]`, so that position `k` ends up holding the
element that was at position `i + j - k`.  The source's
`std::reverse(tour.begin() + i, tour.begin() + j)` reverses the
half-open range `[i, j)`: on tour `[0, 1, 2]` with draw `i = 0, j = 2`
the result is `[1, 0, 2]`, not the inclusive reversal `[2, 1, 0]`, and
position `0` holds `1`, not the element `2` that was at position
`0 + 2 - 0`. -/
theorem claim1_counterexample :
    reverseSegment [0, 1, 2] 0 2 = [1, 0, 2] ∧
    (reverseSegment [0, 1, 2] 0 2).getD 0 0
      ≠ ([0, 1, 2] : List Nat).getD (0 + 2 - 0) 0 ∧
    reverseSegment [0, 1, 2] 0 2 ≠ reverseSegmentInclusive [0, 1, 2] 0 2 := by
  decide

/-- Claim C1, amended: for distinct drawn positions ordered as
`i < j`, the move reverses the half-open index range `[i, j)`: every
position `k` with `i ≤ k < j` ends up holding the element that was at
position `i + (j - 1) - k`, and every position outside `[i, j)` —
including `j` itself — is unchanged. -/
theorem claim1_reversal_halfopen (l : List Nat) (i j : Nat)
    (hij : i < j) (hj : j ≤ l.length) :
    (reverseSegment l i j).length = l.length ∧
    (∀ k, i ≤ k → k < j →
      (reverseSegment l i j).getD k 0 = l.getD (i + j - 1 - k) 0) ∧
    (∀ k, k < i → (reverseSegment l i j).getD k 0 = l.getD k 0) ∧
    (∀ k, j ≤ k → (reverseSegment l i j).getD k 0 = l.getD k 0) := by
  refine ⟨reverseSegment_length l i j (le_of_lt hij), ?_, ?_, ?_⟩
  · intro k h1 h2
    rw [List.getD_eq_getElem?_getD, List.getD_eq_getElem?_getD,
      reverseSegment_getElem?_mid l i j k h1 h2 hj]
  · intro k h1
    rw [List.getD_eq_getElem?_getD, List.getD_eq_getElem?_getD,
      reverseSegment_getElem?_left l i j k h1 (by omega)]
  · intro k h1
    rw [List.getD_eq_getElem?_getD, List.getD_eq_getElem?_getD,
      reverseSegment_getElem?_right l i j k (by omega) h1 hj]

/-- Witness for the amended Claim C1 on the tour `[5, 6, 7]` with the
draw `i = 0, j = 2`. -/
theorem claim1_reversal_halfopen_witness :
    (0 : Nat) < 2 ∧ 2 ≤ ([5, 6, 7] : List Nat).length ∧
    (reverseSegment [5, 6, 7] 0 2).getD 0 0 = ([5, 6, 7] : List Nat).getD 1 0 ∧
    (reverseSegment [5, 6, 7] 0 2).getD 2 0 = ([5, 6, 7] : List Nat).getD 2 0 := by
  refine ⟨by decide, by decide, ?_, ?_⟩
  · exact (claim1_reversal_halfopen [5, 6, 7] 0 2 (by decide) (by decide)).2.1 0
      (by decide) (by decide)
  · exact (claim1_reversal_halfopen [5, 6, 7] 0 2 (by decide) (by decide)).2.2.2 2
      (by decide)

/-- Claim C3, counterexample.  The engine does re-draw on `i == j`, but
it is false that every evaluated candidate differs from the current
tour: for the adjacent draw `i = 0, j = 1` the half-open reversal
`[0, 1)` is the identity, yet the step still runs the full evaluation
path (the temperature is cooled, unlike on a degenerate `continue`). -/
theorem claim3_counterexample :
    (0 : Nat) ≠ 1 ∧
    reverseSegment ((initState [0, 1] cities2).tour) (min 0 1) (max 0 1)
      = (initState [0, 1] cities2).tour ∧
    (saStep cities2 0 1 (1/2) (initState [0, 1] cities2)).T
      = initialTemperature * coolingRate := by
  refine ⟨by decide, by decide, ?_⟩
  rw [saStep_T_eq cities2 0 1 (1/2) (initState [0, 1] cities2) (by decide)]
  rfl

/-- Claim C3, amended: on a degenerate draw `i == j` the engine
re-draws without applying any move (the state, temperature included, is
unchanged); an evaluated candidate with ordered positions `i < j`
differs from the current tour exactly when `j ≥ i + 2`: an adjacent
ordered draw `j = i + 1` produces a perturbed tour equal to the current
one (a no-op that is nevertheless evaluated), while for `j ≥ i + 2` on
a duplicate-free tour the perturbed tour always differs. -/
theorem claim3_degen_and_noop (c : List City) (u : ℝ) (s : SAState)
    (l : List Nat) (i j : Nat) (hnd : l.Nodup) (hij2 : i + 2 ≤ j)
    (hj : j ≤ l.length) :
    saStep c i i u s = s ∧
    (i + 1 ≤ l.length → reverseSegment l i (i + 1) = l) ∧
    reverseSegment l i j ≠ l := by
  refine ⟨saStep_degenerate c i u s, fun h => reverseSegment_adjacent l i h, ?_⟩
  intro heq
  have h1 : (reverseSegment l i j).getD i 0 = l.getD (i + j - 1 - i) 0 := by
    rw [List.getD_eq_getElem?_getD, List.getD_eq_getElem?_getD,
      reverseSegment_getElem?_mid l i j i (le_refl i) (by omega) hj]
  rw [heq, show i + j - 1 - i = j - 1 from by omega] at h1
  have hi : i < l.length := by omega
  have hj1 : j - 1 < l.length := by omega
  rw [List.getD_eq_getElem?_getD, List.getD_eq_getElem?_getD,
    List.getElem?_eq_getElem hi, List.getElem?_eq_getElem hj1] at h1
  simp only [Option.getD_some] at h1
  have := (hnd.getElem_inj_iff).mp h1
  omega

/-- Witness for the amended Claim C3: a degenerate step on the one-city
instance is the identity, and the non-adjacent reversal `[0, 2)` of the
duplicate-free tour `[0, 1, 2, 3]` really changes it. -/
theorem claim3_degen_and_noop_witness :
    ([0, 1, 2, 3] : List Nat).Nodup ∧ 0 + 2 ≤ 2 ∧
    2 ≤ ([0, 1, 2, 3] : List Nat).length ∧
    reverseSegment [0, 1, 2, 3] 0 2 ≠ [0, 1, 2, 3] :=
  ⟨by decide, by decide, by decide,
    (claim3_degen_and_noop cities1 0 (initState [0] cities1) [0, 1, 2, 3] 0 2
      (by decide) (by decide) (by decide)).2.2⟩

/-- Claim C9: the source's segment reversal is an involution — applying
the same reversal twice restores the original tour — and therefore the
rejection branch, which re-reverses the same `[i, j)` segment, restores
the working tour to exactly its value before the move. -/
theorem claim9_involution_rollback :
    (∀ (l : List Nat) (i j : Nat), i ≤ j → j ≤ l.length →
      reverseSegment (reverseSegment l i j) i j = l) ∧
    (∀ (c : List City) (i j : Nat) (u : ℝ) (s : SAState), ¬ i = j →
      max i j ≤ s.tour.length →
      ¬ (totalDistance (reverseSegment s.tour (min i j) (max i j)) c
          - s.currentDistance < 0 ∨
        Real.exp (-(totalDistance (reverseSegment s.tour (min i j) (max i j)) c
          - s.currentDistance) / s.T) > u) →
      (saStep c i j u s).tour = s.tour) := by
  constructor
  · intro l i j h1 h2
    exact reverseSegment_involution l i j h1 h2
  · intro c i j u s hij hb hrej
    rw [saStep_reject_eq c i j u s hij hrej]
    exact reverseSegment_involution s.tour (min i j) (max i j) min_le_max hb

/-- Witness for Claim C9: the double reversal of `[1, 3)` on `[0, 1, 2]`
and a concrete rejected move whose rollback restores the tour. -/
theorem claim9_witness :
    reverseSegment (reverseSegment [0, 1, 2] 1 3) 1 3 = [0, 1, 2] ∧
    (saStep cities3 0 2 2 (initState [0, 1, 2] cities3)).tour
      = (initState [0, 1, 2] cities3).tour := by
  constructor
  · exact claim9_involution_rollback.1 [0, 1, 2] 1 3 (by decide) (by decide)
  · refine claim9_involution_rollback.2 cities3 0 2 2
      (initState [0, 1, 2] cities3) (by decide) (by decide) ?_
    have h1 : totalDistance
        (reverseSegment (initState [0, 1, 2] cities3).tour (min 0 2) (max 0 2))
          cities3 = 0 :=
      totalDistance_origin _ cities3 cities3_origin
    have h2 : (initState [0, 1, 2] cities3).currentDistance = 0 :=
      totalDistance_origin [0, 1, 2] cities3 cities3_origin
    rw [h1, h2]
    norm_num [Real.exp_zero]

end Claims

section ClaimsEngine

/-- Claim C2 (the code violates it).  For the one-city instance the
source draws `i` and `j` from `uniform_int_distribution(0, 0)`, so
every draw is `i = j = 0`; the `continue` on line 83 skips the cooling
on line 100, so the state — the temperature included — never changes
and the loop guard `T > absoluteTemperature` stays true forever: the
engine never terminates, instead of short-circuiting with cost `0`.
(For `n = 0` the source's `uniform_int_distribution(0, -1)` is outright
undefined behaviour.)  Formally: under draws bounded by `n = 1`, any
number of loop iterations leaves the state exactly as it was, and the
exit condition never becomes true. -/
theorem claim2_degenerate_diverges (c : List City)
    (draws : List (Nat × Nat × ℝ)) (s : SAState)
    (hdraws : ∀ d ∈ draws, d.1 < 1 ∧ d.2.1 < 1) :
    saLoop c draws s = s ∧
    (absoluteTemperature < s.T → absoluteTemperature < (saLoop c draws s).T) := by
  have h1 : ∀ draws2 : List (Nat × Nat × ℝ),
      (∀ d ∈ draws2, d.1 < 1 ∧ d.2.1 < 1) → saLoop c draws2 s = s := by
    intro draws2
    induction draws2 with
    | nil => intro _; rfl
    | cons d rest ih =>
      intro hds
      obtain ⟨i, j, u⟩ := d
      have hd : i < 1 ∧ j < 1 := hds (i, j, u) (List.mem_cons_self _ _)
      have hi : i = 0 := by omega
      have hj : j = 0 := by omega
      subst hi
      subst hj
      rw [saLoop, saStep_degenerate]
      split_ifs with hT
      · exact ih (fun d hdm => hds d (List.mem_cons_of_mem _ hdm))
      · rfl
  have h2 := h1 draws hdraws
  refine ⟨h2, fun h => ?_⟩
  rw [h2]
  exact h

/-- Witness for Claim C2's theorem on the one-city instance: a run of
one (necessarily degenerate) draw changes nothing, and the loop guard
is still true afterwards. -/
theorem claim2_witness :
    (∀ d ∈ [((0 : Nat), (0 : Nat), (1/2 : ℝ))], d.1 < 1 ∧ d.2.1 < 1) ∧
    saLoop cities1 [(0, 0, 1/2)] (initState [0] cities1)
      = initState [0] cities1 ∧
    absoluteTemperature
      < (saLoop cities1 [(0, 0, 1/2)] (initState [0] cities1)).T := by
  have hd : ∀ d ∈ [((0 : Nat), (0 : Nat), (1/2 : ℝ))], d.1 < 1 ∧ d.2.1 < 1 := by
    intro d hdm
    rw [List.mem_singleton.mp hdm]
    exact ⟨Nat.zero_lt_one, Nat.zero_lt_one⟩
  obtain ⟨hl, hr⟩ := claim2_degenerate_diverges cities1 [(0, 0, 1/2)]
    (initState [0] cities1) hd
  refine ⟨hd, hl, hr ?_⟩
  show absoluteTemperature < initialTemperature
  norm_num [absoluteTemperature, initialTemperature]

/-- Claim C4: acceptance follows the Metropolis rule and nothing else.
With `newD` the cost of the perturbed tour and `delta = newD -
currentCost`: if `delta < 0` the step accepts no matter what the real
draw is (the outcome is independent of `u`, and the perturbed tour is
committed with its cost); if `delta ≥ 0` the step commits the perturbed
tour and its cost exactly when `exp(-delta / T) > u` (for draws
`u < 1`, as produced by `uniform_real_distribution(0.0, 1.0)`). -/
theorem claim4_acceptance (c : List City) (i j : Nat) (u : ℝ) (s : SAState)
    (hij : ¬ i = j) (hu : u < 1) (newD delta : ℝ)
    (hnew : newD = totalDistance (reverseSegment s.tour (min i j) (max i j)) c)
    (hdelta : delta = newD - s.currentDistance) :
    (delta < 0 →
      (∀ v : ℝ, saStep c i j v s = saStep c i j u s) ∧
      (saStep c i j u s).tour = reverseSegment s.tour (min i j) (max i j) ∧
      (saStep c i j u s).currentDistance = newD) ∧
    (0 ≤ delta →
      (((saStep c i j u s).tour = reverseSegment s.tour (min i j) (max i j) ∧
        (saStep c i j u s).currentDistance = newD) ↔
      Real.exp (-delta / s.T) > u)) := by
  subst hdelta
  subst hnew
  constructor
  · intro hneg
    have hcondv : ∀ v : ℝ,
        totalDistance (reverseSegment s.tour (min i j) (max i j)) c
          - s.currentDistance < 0 ∨
        Real.exp (-(totalDistance (reverseSegment s.tour (min i j) (max i j)) c
          - s.currentDistance) / s.T) > v :=
      fun v => Or.inl hneg
    refine ⟨fun v => ?_, ?_, ?_⟩
    · rw [saStep_accept_eq c i j v s hij (hcondv v),
        saStep_accept_eq c i j u s hij (hcondv u)]
    · rw [saStep_accept_eq c i j u s hij (hcondv u)]
    · rw [saStep_accept_eq c i j u s hij (hcondv u)]
  · intro hpos
    by_cases hacc : totalDistance
        (reverseSegment s.tour (min i j) (max i j)) c
          - s.currentDistance < 0 ∨
        Real.exp (-(totalDistance (reverseSegment s.tour (min i j) (max i j)) c
          - s.currentDistance) / s.T) > u
    · constructor
      · intro _
        rcases hacc with h | h
        · exact absurd h (not_lt.mpr hpos)
        · exact h
      · intro _
        rw [saStep_accept_eq c i j u s hij hacc]
        exact ⟨rfl, rfl⟩
    · constructor
      · intro hconj
        exfalso
        have h2 : (saStep c i j u s).currentDistance = s.currentDistance := by
          rw [saStep_reject_eq c i j u s hij hacc]
        rw [h2] at hconj
        have hd0 : totalDistance
            (reverseSegment s.tour (min i j) (max i j)) c
              - s.currentDistance = 0 := by
          rw [← hconj.2]
          ring
        rw [hd0] at hacc
        push_neg at hacc
        have hz : -(0 : ℝ) / s.T = 0 := by norm_num
        rw [hz, Real.exp_zero] at hacc
        linarith [hacc.2]
      · intro hexp
        exact absurd (Or.inr hexp) hacc

/-- Witness for Claim C4 on the all-at-origin three-city instance: the
draw `(0, 2)` has `delta = 0` and `exp(0) = 1 > 1/2`, so the move is
accepted and the step's tour is the perturbed tour. -/
theorem claim4_witness :
    ¬ (0 : Nat) = 2 ∧ ((1 : ℝ) / 2) < 1 ∧
    (saStep cities3 0 2 (1/2) (initState [0, 1, 2] cities3)).tour
      = reverseSegment (initState [0, 1, 2] cities3).tour (min 0 2) (max 0 2) := by
  have hd0 : totalDistance
      (reverseSegment (initState [0, 1, 2] cities3).tour (min 0 2) (max 0 2))
        cities3 - (initState [0, 1, 2] cities3).currentDistance = 0 := by
    have ha := totalDistance_origin
      (reverseSegment (initState [0, 1, 2] cities3).tour (min 0 2) (max 0 2))
      cities3 cities3_origin
    have hb : (initState [0, 1, 2] cities3).currentDistance = 0 :=
      totalDistance_origin [0, 1, 2] cities3 cities3_origin
    rw [ha, hb, sub_zero]
  refine ⟨by decide, by norm_num, ?_⟩
  have h := claim4_acceptance cities3 0 2 (1/2) (initState [0, 1, 2] cities3)
    (by decide) (by norm_num)
    (totalDistance
      (reverseSegment (initState [0, 1, 2] cities3).tour (min 0 2) (max 0 2))
      cities3)
    (totalDistance
      (reverseSegment (initState [0, 1, 2] cities3).tour (min 0 2) (max 0 2))
      cities3 - (initState [0, 1, 2] cities3).currentDistance)
    rfl rfl
  refine ((h.2 (le_of_eq hd0.symm)).mpr ?_).1
  rw [hd0]
  norm_num [Real.exp_zero]

end ClaimsEngine

section ClaimsRemaining

/-- Claim C5: `totalDistance` sums the Euclidean distance over every
cyclically-consecutive pair of tour positions — the wrap-around edge
from the last position to the first included — which is exactly one
edge per tour position (`n` edges); for `n ≤ 1` the result is `0`. -/
theorem claim5_totalCost (tour : List Nat) (cities : List City) :
    totalDistance tour cities = specTotalCost tour cities ∧
    (tour.zip (tour.rotate 1)).length = tour.length ∧
    (tour.length ≤ 1 → totalDistance tour cities = 0) :=
  ⟨totalDistance_eq_spec tour cities, by simp [List.length_rotate],
    totalDistance_degenerate tour cities⟩

/-- Witness for Claim C5's degenerate clause at the one-city instance. -/
theorem claim5_witness :
    ([0] : List Nat).length ≤ 1 ∧ totalDistance [0] cities1 = 0 :=
  ⟨by decide, (claim5_totalCost [0] cities1).2.2 (by decide)⟩

/-- Claim C6: starting from a working tour that is a permutation of
`[0, n)`, after any number of engine iterations — moves applied,
accepted, or rolled back — the working tour is still a permutation of
`[0, n)`. -/
theorem claim6_permutation_invariant (c : List City)
    (draws : List (Nat × Nat × ℝ)) (s : SAState) (n : Nat)
    (h : s.tour.Perm (List.range n)) :
    ((saLoop c draws s).tour).Perm (List.range n) :=
  (saLoop_tour_perm c draws s).trans h

/-- Witness for Claim C6 on a three-city run of one draw. -/
theorem claim6_witness :
    ((initState [1, 0, 2] cities3).tour).Perm (List.range 3) ∧
    ((saLoop cities3 [(0, 2, 1/2)] (initState [1, 0, 2] cities3)).tour).Perm
      (List.range 3) :=
  ⟨by decide, claim6_permutation_invariant cities3 [(0, 2, 1/2)]
    (initState [1, 0, 2] cities3) 3 (by decide)⟩

/-- Claim C7: across a run, `bestDistance` never increases; it always
equals the cost of `bestTour`; it equals the minimum — folded with
`min` — of the best cost at entry and the costs of all tours committed
(accepted) during the run; and `bestTour` is either the entry best tour
or one of the committed tours, so the minimum is achieved by it. -/
theorem claim7_best_tracking (c : List City) (draws : List (Nat × Nat × ℝ))
    (s : SAState) (hb : s.bestDistance = totalDistance s.bestTour c) :
    (saLoop c draws s).bestDistance ≤ s.bestDistance ∧
    (saLoop c draws s).bestDistance
      = totalDistance (saLoop c draws s).bestTour c ∧
    (saLoop c draws s).bestDistance =
      List.foldl min s.bestDistance
        ((saLoopCommitted c draws s).map (fun t => totalDistance t c)) ∧
    ((saLoop c draws s).bestTour = s.bestTour ∨
      (saLoop c draws s).bestTour ∈ saLoopCommitted c draws s) :=
  ⟨saLoop_bestDistance_le c draws s, saLoop_best_inv c draws s hb,
    (saLoop_best_min c draws s hb).1, (saLoop_best_min c draws s hb).2⟩

/-- Witness for Claim C7 on a three-city run of one draw. -/
theorem claim7_witness :
    (initState [0, 1, 2] cities3).bestDistance
      = totalDistance (initState [0, 1, 2] cities3).bestTour cities3 ∧
    (saLoop cities3 [(0, 2, 1/2)] (initState [0, 1, 2] cities3)).bestDistance
      ≤ (initState [0, 1, 2] cities3).bestDistance :=
  ⟨rfl, (claim7_best_tracking cities3 [(0, 2, 1/2)]
    (initState [0, 1, 2] cities3) rfl).1⟩

/-- Claim C8: for every run, the engine's final answer is `bestTour` —
the final `tour = bestTour` assignment of the source — whose cost is
the final `bestDistance`, and that cost never exceeds the cost of the
starting tour (so the answer is the best committed tour, not whatever
tour the chain happens to end in). -/
theorem claim8_returns_best (tour : List Nat) (c : List City)
    (draws : List (Nat × Nat × ℝ)) :
    simulatedAnnealing tour c draws
      = (saLoop c draws (initState tour c)).bestTour ∧
    totalDistance (simulatedAnnealing tour c draws) c
      = (saLoop c draws (initState tour c)).bestDistance ∧
    (saLoop c draws (initState tour c)).bestDistance
      ≤ totalDistance tour c := by
  refine ⟨rfl, ?_, ?_⟩
  · exact (saLoop_best_inv c draws (initState tour c) rfl).symm
  · exact saLoop_bestDistance_le c draws (initState tour c)

/-- Claim C10: if `currentCost` is the cost of the working tour and
`bestCost` the cost of `bestTour` when the loop is entered, then both
facts still hold after any number of iterations whose draws are in
range — the accept branch stores the recomputed cost with the kept
tour, and the reject branch restores the tour while leaving the cost
untouched. -/
theorem claim10_cost_consistency (c : List City)
    (draws : List (Nat × Nat × ℝ)) (s : SAState)
    (hc : s.currentDistance = totalDistance s.tour c)
    (hb : s.bestDistance = totalDistance s.bestTour c)
    (hd : ∀ d ∈ draws, d.1 < s.tour.length ∧ d.2.1 < s.tour.length) :
    (saLoop c draws s).currentDistance
      = totalDistance (saLoop c draws s).tour c ∧
    (saLoop c draws s).bestDistance
      = totalDistance (saLoop c draws s).bestTour c :=
  ⟨saLoop_cost_inv c draws s hc hd, saLoop_best_inv c draws s hb⟩

/-- Witness for Claim C10 on a three-city run of one in-range draw. -/
theorem claim10_witness :
    (∀ d ∈ [((0 : Nat), (2 : Nat), (1/2 : ℝ))],
      d.1 < (initState [0, 1, 2] cities3).tour.length ∧
      d.2.1 < (initState [0, 1, 2] cities3).tour.length) ∧
    (saLoop cities3 [(0, 2, 1/2)] (initState [0, 1, 2] cities3)).currentDistance
      = totalDistance
        (saLoop cities3 [(0, 2, 1/2)] (initState [0, 1, 2] cities3)).tour
        cities3 := by
  have hd : ∀ d ∈ [((0 : Nat), (2 : Nat), (1/2 : ℝ))],
      d.1 < (initState [0, 1, 2] cities3).tour.length ∧
      d.2.1 < (initState [0, 1, 2] cities3).tour.length := by
    intro d hdm
    rw [List.mem_singleton.mp hdm]
    exact ⟨by decide, by decide⟩
  exact ⟨hd, (claim10_cost_consistency cities3 [(0, 2, 1/2)]
    (initState [0, 1, 2] cities3) rfl rfl hd).1⟩

end ClaimsRemaining
